import Mathlib

/-!
Verification of the aggregation pipeline of the electricity-usage viewer
(`main.py`).  The pipeline is embedded shallowly:

* an input line is modelled as its two semicolon-separated fields
  (timestamp field, reading field), both strings;
* energy readings are modelled as exact rationals;
* fallible steps (the column conversions of `parse_hourly`, the
  `reindex` of the comparison mode, the first/last access of the banner)
  return `Except` / `Option`, where an `error` / `none` models a raised
  exception;
* `sort_values` / sorted `groupby` keys are modelled by a structural
  insertion sort (only sortedness and permutation of the result matter).
-/

/-- A calendar timestamp at minute granularity, as parsed from
`DD.MM.YYYY HH:MM` by `pd.to_datetime(..., format="%d.%m.%Y %H:%M")`. -/
structure Timestamp where
  year : Nat
  month : Nat
  day : Nat
  hour : Nat
  minute : Nat
deriving DecidableEq, Repr

/-- A calendar date, the result of `.dt.date`. -/
structure Date where
  year : Nat
  month : Nat
  day : Nat
deriving DecidableEq, Repr

/-- Truncating a timestamp to its date component (`timestamp.dt.date`). -/
def Timestamp.date (t : Timestamp) : Date :=
  ⟨t.year, t.month, t.day⟩

/-- Chronological key of a timestamp.  For timestamps with in-range
fields (month 1–12, day 1–31, hour 0–23, minute 0–59) this key orders
exactly like the `datetime` values pandas compares. -/
def tsKey (t : Timestamp) : Nat :=
  (((t.year * 13 + t.month) * 32 + t.day) * 24 + t.hour) * 60 + t.minute

/-- Chronological key of a date; injective on in-range dates. -/
def dateKey (d : Date) : Nat :=
  (d.year * 13 + d.month) * 32 + d.day

/-- Numeric value of a digit character. -/
def digitVal (c : Char) : Nat :=
  c.toNat - 48

/-- Value of a digit string (most significant first). -/
def digitsVal (cs : List Char) : Nat :=
  cs.foldl (fun acc c => acc * 10 + digitVal c) 0

/-- `Series.str.match(r"\d{2}\.\d{2}\.\d{4} \d{2}:\d{2}")`: `re.match`
anchors at the START of the string only, so this accepts any string that
BEGINS with the pattern, trailing characters included. -/
def maskMatch (s : String) : Bool :=
  match s.data with
  | c1 :: c2 :: '.' :: c3 :: c4 :: '.' :: c5 :: c6 :: c7 :: c8 :: ' '
      :: c9 :: c10 :: ':' :: c11 :: c12 :: _ =>
    c1.isDigit && c2.isDigit && c3.isDigit && c4.isDigit && c5.isDigit &&
    c6.isDigit && c7.isDigit && c8.isDigit && c9.isDigit && c10.isDigit &&
    c11.isDigit && c12.isDigit
  | _ => false

/-- Gregorian leap-year test, as in Python's `datetime`. -/
def isLeapYear (y : Nat) : Bool :=
  y % 4 == 0 && (y % 100 != 0 || y % 400 == 0)

/-- Number of days of a month, as validated by Python's `datetime`. -/
def daysInMonth (y m : Nat) : Nat :=
  if m == 2 then (if isLeapYear y then 29 else 28)
  else if m == 4 || m == 6 || m == 9 || m == 11 then 30
  else 31

/-- Range validation performed by `datetime`: year at least 1, month
1–12, day 1–`daysInMonth`, hour 0–23, minute 0–59. -/
def mkValidTs (year month day hour minute : Nat) : Option Timestamp :=
  if 1 ≤ year && 1 ≤ month && month ≤ 12 && 1 ≤ day &&
     day ≤ daysInMonth year month && hour ≤ 23 && minute ≤ 59 then
    some ⟨year, month, day, hour, minute⟩
  else none

/-- `pd.to_datetime(s, format="%d.%m.%Y %H:%M")` on one string: succeeds
only when the WHOLE string has exactly the 16-character shape of the
format and the fields form a valid calendar timestamp; otherwise the
conversion raises (`none`). -/
def parseTsExact (s : String) : Option Timestamp :=
  match s.data with
  | [d1, d2, '.', m1, m2, '.', y1, y2, y3, y4, ' ', h1, h2, ':', n1, n2] =>
    if d1.isDigit && d2.isDigit && m1.isDigit && m2.isDigit && y1.isDigit &&
       y2.isDigit && y3.isDigit && y4.isDigit && h1.isDigit && h2.isDigit &&
       n1.isDigit && n2.isDigit then
      mkValidTs
        (((digitVal y1 * 10 + digitVal y2) * 10 + digitVal y3) * 10 + digitVal y4)
        (digitVal m1 * 10 + digitVal m2)
        (digitVal d1 * 10 + digitVal d2)
        (digitVal h1 * 10 + digitVal h2)
        (digitVal n1 * 10 + digitVal n2)
    else none
  | _ => none

/-- The numeric conversion applied to the reading column
(`decimal=","` followed by `astype(float)`): an optional sign, a
non-empty integer part, and an optional non-empty fractional part after
a comma.  Any other string fails to convert (`none`). -/
def parseDecimalComma (s : String) : Option ℚ :=
  let body : List Char → Option ℚ := fun cs =>
    let intPart := cs.takeWhile Char.isDigit
    let rest := cs.dropWhile Char.isDigit
    if intPart.isEmpty then none
    else
      match rest with
      | [] => some (digitsVal intPart : ℚ)
      | ',' :: frac =>
        if !frac.isEmpty && frac.all Char.isDigit then
          some ((digitsVal intPart : ℚ)
            + (digitsVal frac : ℚ) / (10 : ℚ) ^ frac.length)
        else none
      | _ => none
  match s.data with
  | '-' :: cs => (body cs).map (fun q => -q)
  | cs => body cs

/-- One parsed hourly row `<timestamp, kwh>`. -/
structure Row where
  timestamp : Timestamp
  kwh : ℚ
deriving DecidableEq, Repr

/-- Date of an hourly row (`timestamp.dt.date`). -/
def Row.date (r : Row) : Date :=
  r.timestamp.date

/-- The two ways the conversion of a kept column can raise. -/
inductive ParseErr where
  | badTimestamp
  | badNumber
deriving DecidableEq, Repr

/-- Conversion of the whole kept timestamp column by `pd.to_datetime`:
the first entry that does not convert raises. -/
def tsColumn : List (String × String) → Except ParseErr (List Timestamp)
  | [] => .ok []
  | l :: ls =>
    match parseTsExact l.1 with
    | none => .error .badTimestamp
    | some t =>
      match tsColumn ls with
      | .ok ts => .ok (t :: ts)
      | .error e => .error e

/-- Conversion of the whole kept reading column to floats: the first
entry that does not convert raises. -/
def kwhColumn : List (String × String) → Except ParseErr (List ℚ)
  | [] => .ok []
  | l :: ls =>
    match parseDecimalComma l.2 with
    | none => .error .badNumber
    | some q =>
      match kwhColumn ls with
      | .ok ks => .ok (q :: ks)
      | .error e => .error e

/-- Structural insertion into a list sorted by the boolean relation
`le`; used to model the sorting steps. -/
def insertLe {α : Type} (le : α → α → Bool) (a : α) : List α → List α
  | [] => [a]
  | x :: xs => if le a x then a :: x :: xs else x :: insertLe le a xs

/-- Structural insertion sort by the boolean relation `le`. -/
def sortLe {α : Type} (le : α → α → Bool) : List α → List α
  | [] => []
  | x :: xs => insertLe le x (sortLe le xs)

/-- Row comparison used by `sort_values("timestamp")`. -/
def rowLe (a b : Row) : Bool :=
  Nat.ble (tsKey a.timestamp) (tsKey b.timestamp)

/-- `parse_hourly`: read the two semicolon-separated fields of every
line, drop the first four lines (`skiprows=4`), keep the lines whose
timestamp field begins with the `DD.MM.YYYY HH:MM` pattern
(`str.match`), convert the kept timestamp column and then the kept
reading column (either conversion can raise), and sort the resulting
rows by timestamp ascending. -/
def parse_hourly (lines : List (String × String)) :
    Except ParseErr (List Row) :=
  let kept := (lines.drop 4).filter (fun l => maskMatch l.1)
  match tsColumn kept, kwhColumn kept with
  | .ok ts, .ok ks =>
    .ok (sortLe rowLe ((ts.zip ks).map (fun p => ⟨p.1, p.2⟩)))
  | .error e, _ => .error e
  | .ok _, .error e => .error e

/-- One row of the daily aggregate `<date, daily_kwh>`. -/
structure DailyRow where
  date : Date
  daily_kwh : ℚ
deriving DecidableEq, Repr

/-- Date comparison used for the sorted `groupby` keys. -/
def dateLe (a b : Date) : Bool :=
  Nat.ble (dateKey a) (dateKey b)

/-- `hourly_to_daily`: group the rows by their truncated date and sum
`kwh` within each group; `groupby` emits one row per distinct key, keys
sorted ascending. -/
def hourly_to_daily (rows : List Row) : List DailyRow :=
  let dates := sortLe dateLe ((rows.map Row.date).dedup)
  dates.map (fun d =>
    ⟨d, ((rows.filter (fun r => decide (r.date = d))).map Row.kwh).sum⟩)

/-- One row of the table returned by `daily_to_weekly`.  Besides the
four data columns set by `.at`, the table keeps the single column
(labelled `0`) of the frame it was initialised from; a `none` field
models a `NaN` cell. -/
structure WeeklyRow where
  col0 : Option String
  date : Option Date
  weekly_kwh_avg : Option ℚ
  min : Option ℚ
  max : Option ℚ
deriving DecidableEq, Repr

/-- Python's `round` to an integer: half-to-even. -/
def roundHalfEven (q : ℚ) : ℤ :=
  let f := Rat.floor q
  if q - f < 1 / 2 then f
  else if q - f > 1 / 2 then f + 1
  else if f % 2 = 0 then f else f + 1

/-- Python's `round(x, 2)`. -/
def round2 (q : ℚ) : ℚ :=
  (roundHalfEven (q * 100) : ℚ) / 100

/-- The strings `daily_to_weekly` initialises its output frame from.
`pd.DataFrame(['date', 'weekly_kwh_avg', 'min', 'max'])` builds a frame
with FOUR ROWS (index labels 0–3) and a single column labelled `0`
holding these strings — not a frame with four named columns. -/
def initialRows : List String :=
  ["date", "weekly_kwh_avg", "min", "max"]

/-- The `i`-th fixed 7-row block of the daily table,
`daily_df.iloc[i*7:(i+1)*7]`. -/
def weeklyBlock (daily : List DailyRow) (i : Nat) : List DailyRow :=
  (daily.drop (i * 7)).take 7

/-- `daily_to_weekly`: for each complete 7-row block `i` of the daily
table, `.at[i, ...]` fills the columns `date` (first date of the block),
`weekly_kwh_avg` (`round(sum/7, 2)`), `min` and `max` of the block.
Because the frame starts with four rows (see `initialRows`), the result
has `max (n / 7) 4` rows: rows `i ≥ n / 7` keep only the leftover
string in column `0`, with `NaN` in the four data columns. -/
def daily_to_weekly (daily : List DailyRow) : List WeeklyRow :=
  let k := daily.length / 7
  (List.range (Nat.max k 4)).map (fun i =>
    if i < k then
      let vals := (weeklyBlock daily i).map DailyRow.daily_kwh
      { col0 := initialRows[i]?
        date := (weeklyBlock daily i).head?.map DailyRow.date
        weekly_kwh_avg := some (round2 (vals.sum / 7))
        min := vals.min?
        max := vals.max? }
    else
      { col0 := initialRows[i]?, date := none, weekly_kwh_avg := none,
        min := none, max := none })

/-- The 24-slot column the comparison mode builds for one source:
`set_index(hour)["kwh"].reindex(range(24), fill_value=0.0)` — slot `h`
holds the first reading of the chosen date whose hour is `h`, and `0`
when the date has no reading at hour `h`. -/
def dayColumn (rows : List Row) (d : Date) : List ℚ :=
  let slice := rows.filter (fun r => decide (r.date = d))
  (List.range 24).map (fun h =>
    match slice.find? (fun r => decide (r.timestamp.hour = h)) with
    | some r => r.kwh
    | none => 0)

/-- The reindexing step for one source: `reindex` raises (`error`) when
the day's hour labels contain a duplicate. -/
def reindexDay (rows : List Row) (d : Date) : Except Unit (List ℚ) :=
  let slice := rows.filter (fun r => decide (r.date = d))
  if (slice.map (fun r => r.timestamp.hour)).Nodup then
    .ok (dayColumn rows d)
  else .error ()

/-- The per-source loop of the comparison mode: a source with no rows on
the chosen date is warned about and skipped; otherwise its day is
reindexed (which can raise, aborting the remaining sources) and the
column is appended under the source's name. -/
def compareDay (sources : List (String × List Row)) (d : Date) :
    Except String (List String × List (String × List ℚ)) :=
  match sources with
  | [] => .ok ([], [])
  | (name, rows) :: rest =>
    if (rows.filter (fun r => decide (r.date = d))).isEmpty then
      match compareDay rest d with
      | .ok (ws, cols) => .ok (name :: ws, cols)
      | .error e => .error e
    else
      match reindexDay rows d with
      | .error _ => .error name
      | .ok col =>
        match compareDay rest d with
        | .ok (ws, cols) => .ok (ws, (name, col) :: cols)
        | .error e => .error e

/-- The banner `daily['date'].iloc[0] → daily['date'].iloc[-1]` of the
single-file modes; `none` models the raise on an empty table. -/
def firstLastDates (daily : List DailyRow) : Option (Date × Date) :=
  match daily.head?, daily.getLast? with
  | some a, some b => some (a.date, b.date)
  | _, _ => none

/-! ### Concrete example inputs -/

/-- Four header lines, discarded unconditionally by `skiprows=4`. -/
def headersEx : List (String × String) :=
  [("h1", "x"), ("h2", "x"), ("h3", "x"), ("h4", "x")]

/-- A daily table of exactly seven rows. -/
def dailySevenEx : List DailyRow :=
  [⟨⟨2024, 1, 1⟩, 10⟩, ⟨⟨2024, 1, 2⟩, 20⟩, ⟨⟨2024, 1, 3⟩, 30⟩,
   ⟨⟨2024, 1, 4⟩, 40⟩, ⟨⟨2024, 1, 5⟩, 50⟩, ⟨⟨2024, 1, 6⟩, 60⟩,
   ⟨⟨2024, 1, 7⟩, 70⟩]

/-- Another seven-row daily table. -/
def dailyWitnessEx : List DailyRow :=
  [⟨⟨2023, 5, 1⟩, 1⟩, ⟨⟨2023, 5, 2⟩, 2⟩, ⟨⟨2023, 5, 3⟩, 3⟩,
   ⟨⟨2023, 5, 4⟩, 4⟩, ⟨⟨2023, 5, 5⟩, 5⟩, ⟨⟨2023, 5, 6⟩, 6⟩,
   ⟨⟨2023, 5, 7⟩, 7⟩]

/-- A source with two readings in the same hour of 2024-01-01. -/
def dupHourSourceEx : List Row :=
  [⟨⟨2024, 1, 1, 0, 0⟩, 1⟩, ⟨⟨2024, 1, 1, 0, 30⟩, 2⟩]

/-- Another source with a duplicated hour (hour 5 of 2025-02-03). -/
def dupHourSourceEx2 : List Row :=
  [⟨⟨2025, 2, 3, 5, 0⟩, 4⟩, ⟨⟨2025, 2, 3, 5, 45⟩, 6⟩, ⟨⟨2025, 2, 3, 7, 0⟩, 9⟩]

/-- Two well-formed sources for the comparison mode: `a` has one reading
on 2024-01-01, `b` has readings only on 2024-01-02. -/
def compareSourcesEx : List (String × List Row) :=
  [("a", [⟨⟨2024, 1, 1, 2, 0⟩, 5⟩]), ("b", [⟨⟨2024, 1, 2, 3, 0⟩, 7⟩])]

/-! ### Properties of the insertion sort -/

theorem insertLe_perm {α : Type} (le : α → α → Bool) (a : α) (l : List α) :
    List.Perm (insertLe le a l) (a :: l) := by
  induction l with
  | nil => exact List.Perm.refl _
  | cons x xs ih =>
    by_cases h : le a x
    · simp [insertLe, h]
    · simp only [insertLe, h, Bool.false_eq_true, if_false]
      exact (ih.cons x).trans (List.Perm.swap a x xs)

theorem sortLe_perm {α : Type} (le : α → α → Bool) (l : List α) :
    List.Perm (sortLe le l) l := by
  induction l with
  | nil => exact List.Perm.refl _
  | cons x xs ih => exact (insertLe_perm le x (sortLe le xs)).trans (ih.cons x)

theorem pairwise_insertLe {α : Type} (le : α → α → Bool)
    (htrans : ∀ a b c, le a b = true → le b c = true → le a c = true)
    (htotal : ∀ a b, le a b = true ∨ le b a = true) (a : α) (l : List α)
    (h : l.Pairwise (fun x y => le x y = true)) :
    (insertLe le a l).Pairwise (fun x y => le x y = true) := by
  induction l with
  | nil => simp [insertLe]
  | cons x xs ih =>
    rw [List.pairwise_cons] at h
    obtain ⟨hx, hxs⟩ := h
    by_cases hax : le a x
    · simp only [insertLe, hax, if_true]
      refine List.Pairwise.cons ?_ (List.Pairwise.cons hx hxs)
      intro y hy
      rcases List.mem_cons.mp hy with rfl | hy
      · exact hax
      · exact htrans a x y hax (hx y hy)
    · simp only [insertLe, hax, Bool.false_eq_true, if_false]
      refine List.Pairwise.cons ?_ (ih hxs)
      intro y hy
      have hy2 : y ∈ a :: xs := (insertLe_perm le a xs).subset hy
      rcases List.mem_cons.mp hy2 with rfl | hy2
      · rcases htotal x y with hxy | hyx
        · exact hxy
        · cases hax hyx
      · exact hx y hy2

theorem pairwise_sortLe {α : Type} (le : α → α → Bool)
    (htrans : ∀ a b c, le a b = true → le b c = true → le a c = true)
    (htotal : ∀ a b, le a b = true ∨ le b a = true) (l : List α) :
    (sortLe le l).Pairwise (fun x y => le x y = true) := by
  induction l with
  | nil => simp [sortLe]
  | cons x xs ih => exact pairwise_insertLe le htrans htotal x (sortLe le xs) ih

/-! ### Grouping helpers -/

theorem filter_eq_single_of_nodup {α : Type} [DecidableEq α] (l : List α)
    (hl : l.Nodup) (d : α) :
    l.filter (fun x => decide (x = d)) = if d ∈ l then [d] else [] := by
  induction l with
  | nil => simp
  | cons x xs ih =>
    rw [List.nodup_cons] at hl
    obtain ⟨hx, hxs⟩ := hl
    by_cases hxd : x = d
    · subst hxd
      have hx2 : xs.filter (fun y => decide (y = x)) = [] := by
        rw [ih hxs, if_neg hx]
      simp [List.filter_cons, hx2]
    · simp [List.filter_cons, hxd, ih hxs, Ne.symm hxd]

theorem sum_map_filter_split {α : Type} (p : α → Bool) (f : α → ℚ) (l : List α) :
    ((l.filter p).map f).sum + ((l.filter (fun a => !p a)).map f).sum
      = (l.map f).sum := by
  induction l with
  | nil => simp
  | cons x xs ih =>
    by_cases h : p x
    · rw [List.filter_cons_of_pos h, List.filter_cons_of_neg (by simp [h])]
      simp only [List.map_cons, List.sum_cons]
      rw [add_assoc, ih]
    · rw [List.filter_cons_of_neg (by simp [h]), List.filter_cons_of_pos (by simp [h])]
      simp only [List.map_cons, List.sum_cons]
      rw [add_left_comm, ih]

theorem sum_over_keys (keys : List Date) (rows : List Row) (hnd : keys.Nodup)
    (hcov : ∀ r ∈ rows, r.date ∈ keys) :
    (keys.map (fun d =>
        ((rows.filter (fun r => decide (r.date = d))).map Row.kwh).sum)).sum
      = (rows.map Row.kwh).sum := by
  induction keys generalizing rows with
  | nil =>
    have : rows = [] := by
      rw [List.eq_nil_iff_forall_not_mem]
      intro r hr
      exact (List.not_mem_nil _) (hcov r hr)
    subst this
    simp
  | cons d ks ih =>
    rw [List.nodup_cons] at hnd
    obtain ⟨hd, hks⟩ := hnd
    simp only [List.map_cons, List.sum_cons]
    have hrest : ∀ d2 ∈ ks,
        ((rows.filter (fun r => !decide (r.date = d))).filter
          (fun r => decide (r.date = d2))).map Row.kwh
        = (rows.filter (fun r => decide (r.date = d2))).map Row.kwh := by
      intro d2 hd2
      rw [List.filter_filter]
      congr 1
      apply List.filter_congr
      intro r _
      have hne : d2 ≠ d := by
        intro hcon
        exact hd (hcon ▸ hd2)
      by_cases h2 : r.date = d2
      · have h3 : r.date ≠ d := by
          rw [h2]
          exact hne
        simp [h2, h3, hne]
      · simp [h2]
    have hmap : ks.map (fun d2 =>
          (((rows.filter (fun r => !decide (r.date = d))).filter
            (fun r => decide (r.date = d2))).map Row.kwh).sum)
        = ks.map (fun d2 =>
          ((rows.filter (fun r => decide (r.date = d2))).map Row.kwh).sum) := by
      apply List.map_congr_left
      intro d2 hd2
      rw [hrest d2 hd2]
    have hcov2 : ∀ r ∈ rows.filter (fun r => !decide (r.date = d)), r.date ∈ ks := by
      intro r hr
      rw [List.mem_filter] at hr
      obtain ⟨hr1, hr2⟩ := hr
      rcases List.mem_cons.mp (hcov r hr1) with heq | hin
      · simp [heq] at hr2
      · exact hin
    rw [← hmap, ih (rows.filter (fun r => !decide (r.date = d))) hks hcov2]
    exact sum_map_filter_split (fun r => decide (r.date = d)) Row.kwh rows

/-! ### Parser provenance and validity -/

theorem cols_ok_mem (ls : List (String × String)) (ts : List Timestamp)
    (ks : List ℚ) (hts : tsColumn ls = .ok ts) (hks : kwhColumn ls = .ok ks) :
    ∀ p ∈ ts.zip ks, ∃ l ∈ ls,
      parseTsExact l.1 = some p.1 ∧ parseDecimalComma l.2 = some p.2 := by
  induction ls generalizing ts ks with
  | nil =>
    simp only [tsColumn] at hts
    simp only [kwhColumn] at hks
    cases hts
    cases hks
    intro p hp
    simp at hp
  | cons l ls ih =>
    simp only [tsColumn] at hts
    simp only [kwhColumn] at hks
    cases hpt : parseTsExact l.1 with
    | none =>
      rw [hpt] at hts
      cases hts
    | some t =>
      rw [hpt] at hts
      cases hc : tsColumn ls with
      | error e =>
        rw [hc] at hts
        cases hts
      | ok ts2 =>
        rw [hc] at hts
        cases hts
        cases hpq : parseDecimalComma l.2 with
        | none =>
          rw [hpq] at hks
          cases hks
        | some q =>
          rw [hpq] at hks
          cases hk : kwhColumn ls with
          | error e =>
            rw [hk] at hks
            cases hks
          | ok ks2 =>
            rw [hk] at hks
            cases hks
            intro p hp
            rcases List.mem_cons.mp hp with rfl | hp2
            · exact ⟨l, List.mem_cons_self l ls, hpt, hpq⟩
            · obtain ⟨l2, hl2, h1, h2⟩ := ih ts2 ks2 hc hk p hp2
              exact ⟨l2, List.mem_cons_of_mem l hl2, h1, h2⟩

theorem parse_ok_rows_spec (lines : List (String × String)) (rows : List Row)
    (h : parse_hourly lines = .ok rows) :
    ∀ r ∈ rows, ∃ l ∈ (lines.drop 4).filter (fun l => maskMatch l.1),
      parseTsExact l.1 = some r.timestamp ∧ parseDecimalComma l.2 = some r.kwh := by
  simp only [parse_hourly] at h
  cases hts : tsColumn ((lines.drop 4).filter (fun l => maskMatch l.1)) with
  | error e =>
    rw [hts] at h
    cases h
  | ok ts =>
    rw [hts] at h
    cases hks : kwhColumn ((lines.drop 4).filter (fun l => maskMatch l.1)) with
    | error e =>
      rw [hks] at h
      cases h
    | ok ks =>
      rw [hks] at h
      cases h
      intro r hr
      have hr2 : r ∈ (ts.zip ks).map (fun p => Row.mk p.1 p.2) :=
        (sortLe_perm rowLe _).subset hr
      obtain ⟨p, hp, hpr⟩ := List.mem_map.mp hr2
      obtain ⟨l, hl, h1, h2⟩ := cols_ok_mem _ ts ks hts hks p hp
      subst hpr
      exact ⟨l, hl, h1, h2⟩

theorem daysInMonth_le (y m : Nat) : daysInMonth y m ≤ 31 := by
  unfold daysInMonth
  split
  · split <;> omega
  · split <;> omega

theorem mkValidTs_bounds (year month day hour minute : Nat) (t : Timestamp)
    (h : mkValidTs year month day hour minute = some t) :
    1 ≤ t.month ∧ t.month ≤ 12 ∧ 1 ≤ t.day ∧ t.day ≤ 31 ∧
      t.hour ≤ 23 ∧ t.minute ≤ 59 := by
  unfold mkValidTs at h
  split at h
  · rename_i hcond
    cases h
    simp only [Bool.and_eq_true, decide_eq_true_eq] at hcond
    have h31 := daysInMonth_le year month
    simp only
    omega
  · cases h

theorem parseTsExact_bounds (s : String) (t : Timestamp)
    (h : parseTsExact s = some t) :
    1 ≤ t.month ∧ t.month ≤ 12 ∧ 1 ≤ t.day ∧ t.day ≤ 31 ∧
      t.hour ≤ 23 ∧ t.minute ≤ 59 := by
  unfold parseTsExact at h
  split at h
  · split at h
    · exact mkValidTs_bounds _ _ _ _ _ t h
    · cases h
  · cases h

theorem parse_ok_bounds (lines : List (String × String)) (rows : List Row)
    (h : parse_hourly lines = .ok rows) :
    ∀ r ∈ rows, 1 ≤ r.timestamp.month ∧ r.timestamp.month ≤ 12 ∧
      1 ≤ r.timestamp.day ∧ r.timestamp.day ≤ 31 ∧
      r.timestamp.hour ≤ 23 ∧ r.timestamp.minute ≤ 59 := by
  intro r hr
  obtain ⟨l, _, h1, _⟩ := parse_ok_rows_spec lines rows h r hr
  exact parseTsExact_bounds l.1 r.timestamp h1

theorem dateKey_inj (a b : Date)
    (ha : 1 ≤ a.month ∧ a.month ≤ 12 ∧ 1 ≤ a.day ∧ a.day ≤ 31)
    (hb : 1 ≤ b.month ∧ b.month ≤ 12 ∧ 1 ≤ b.day ∧ b.day ≤ 31)
    (h : dateKey a = dateKey b) : a = b := by
  obtain ⟨a1, a2, a3⟩ := a
  obtain ⟨b1, b2, b3⟩ := b
  simp only [dateKey] at h
  simp only at ha hb
  simp only [Date.mk.injEq]
  omega

/-! ### Order facts -/

theorem rowLe_trans (a b c : Row) (h1 : rowLe a b = true) (h2 : rowLe b c = true) :
    rowLe a c = true := by
  simp only [rowLe, Nat.ble_eq] at h1 h2 ⊢
  omega

theorem rowLe_total (a b : Row) : rowLe a b = true ∨ rowLe b a = true := by
  simp only [rowLe, Nat.ble_eq]
  omega

theorem dateLe_trans (a b c : Date) (h1 : dateLe a b = true) (h2 : dateLe b c = true) :
    dateLe a c = true := by
  simp only [dateLe, Nat.ble_eq] at h1 h2 ⊢
  omega

theorem dateLe_total (a b : Date) : dateLe a b = true ∨ dateLe b a = true := by
  simp only [dateLe, Nat.ble_eq]
  omega

theorem daily_dates_nodup (rows : List Row) :
    (sortLe dateLe ((rows.map Row.date).dedup)).Nodup :=
  (sortLe_perm dateLe ((rows.map Row.date).dedup)).symm.nodup
    (List.nodup_dedup (rows.map Row.date))

theorem daily_dates_mem (rows : List Row) (x : Date) :
    x ∈ sortLe dateLe ((rows.map Row.date).dedup) ↔ x ∈ rows.map Row.date := by
  rw [(sortLe_perm dateLe ((rows.map Row.date).dedup)).mem_iff, List.mem_dedup]

/-! ### Claim theorems -/

/-- Claim C1: for every parsed hourly sequence and every calendar date,
the daily aggregation produces exactly one row for that date — whose
total is the sum of the `kwh` values of the hourly readings whose
timestamp truncates to that date — when at least one reading has that
date, and produces no row for that date otherwise. -/
theorem hourly_to_daily_rows_for_date (rows : List Row) (d : Date) :
    (hourly_to_daily rows).filter (fun row => decide (row.date = d)) =
      if d ∈ rows.map Row.date
      then [⟨d, ((rows.filter (fun r => decide (r.date = d))).map Row.kwh).sum⟩]
      else [] := by
  unfold hourly_to_daily
  rw [List.filter_map]
  have hcomp : ((fun row : DailyRow => decide (row.date = d)) ∘
      (fun d2 => DailyRow.mk d2
        (((rows.filter (fun r => decide (r.date = d2))).map Row.kwh).sum)))
      = fun d2 => decide (d2 = d) := by
    funext d2
    rfl
  rw [hcomp, filter_eq_single_of_nodup _ (daily_dates_nodup rows) d,
    apply_ite (List.map (fun d2 => DailyRow.mk d2
      (((rows.filter (fun r => decide (r.date = d2))).map Row.kwh).sum)))]
  by_cases hmem : d ∈ rows.map Row.date
  · rw [if_pos ((daily_dates_mem rows d).mpr hmem), if_pos hmem]
    rfl
  · rw [if_neg (fun hc => hmem ((daily_dates_mem rows d).mp hc)), if_neg hmem]
    rfl

/-- Claim C9: the sum of the `daily_kwh` values over all rows of the
daily aggregate equals the sum of the `kwh` values over all rows of the
hourly input — the daily aggregation conserves total energy. -/
theorem hourly_to_daily_total_conservation (rows : List Row) :
    ((hourly_to_daily rows).map DailyRow.daily_kwh).sum
      = (rows.map Row.kwh).sum := by
  unfold hourly_to_daily
  rw [List.map_map]
  exact sum_over_keys _ rows (daily_dates_nodup rows)
    (fun r hr => (daily_dates_mem rows _).mpr (List.mem_map_of_mem Row.date hr))

/-- Claim C7: for every input, the hourly sequence returned by the
parser is monotonically non-decreasing in timestamp (sorted ascending). -/
theorem parse_hourly_sorted (lines : List (String × String)) (rows : List Row)
    (h : parse_hourly lines = .ok rows) :
    rows.Pairwise (fun a b => tsKey a.timestamp ≤ tsKey b.timestamp) := by
  simp only [parse_hourly] at h
  cases hts : tsColumn ((lines.drop 4).filter (fun l => maskMatch l.1)) with
  | error e =>
    rw [hts] at h
    cases h
  | ok ts =>
    rw [hts] at h
    cases hks : kwhColumn ((lines.drop 4).filter (fun l => maskMatch l.1)) with
    | error e =>
      rw [hks] at h
      cases h
    | ok ks =>
      rw [hks] at h
      cases h
      have hp := pairwise_sortLe rowLe rowLe_trans rowLe_total
        ((ts.zip ks).map (fun p => Row.mk p.1 p.2))
      exact hp.imp (fun hab => by simpa [rowLe, Nat.ble_eq] using hab)

/-- Witness for C7: a concrete file whose two data lines are given out
of order; the parse succeeds and the result is sorted. -/
theorem parse_hourly_sorted_witness :
    parse_hourly (headersEx ++ [("02.01.2024 10:00", "3"), ("01.01.2024 09:00", "5")])
      = .ok [⟨⟨2024, 1, 1, 9, 0⟩, 5⟩, ⟨⟨2024, 1, 2, 10, 0⟩, 3⟩] ∧
    List.Pairwise (fun a b => tsKey a.timestamp ≤ tsKey b.timestamp)
      ([⟨⟨2024, 1, 1, 9, 0⟩, 5⟩, ⟨⟨2024, 1, 2, 10, 0⟩, 3⟩] : List Row) :=
  ⟨by rfl, parse_hourly_sorted
    (headersEx ++ [("02.01.2024 10:00", "3"), ("01.01.2024 09:00", "5")])
    [⟨⟨2024, 1, 1, 9, 0⟩, 5⟩, ⟨⟨2024, 1, 2, 10, 0⟩, 3⟩] (by rfl)⟩

/-- Claim C8: for every parsed hourly sequence, the daily aggregate is
strictly increasing in date — ascending order with no duplicate keys. -/
theorem hourly_to_daily_strict_dates (lines : List (String × String))
    (rows : List Row) (h : parse_hourly lines = .ok rows) :
    (hourly_to_daily rows).Pairwise
      (fun a b => dateKey a.date < dateKey b.date) := by
  have hbounds := parse_ok_bounds lines rows h
  unfold hourly_to_daily
  rw [List.pairwise_map]
  have hle := pairwise_sortLe dateLe dateLe_trans dateLe_total
    ((rows.map Row.date).dedup)
  have hnd : (sortLe dateLe ((rows.map Row.date).dedup)).Pairwise (· ≠ ·) :=
    daily_dates_nodup rows
  have hvalid : ∀ x ∈ sortLe dateLe ((rows.map Row.date).dedup),
      1 ≤ x.month ∧ x.month ≤ 12 ∧ 1 ≤ x.day ∧ x.day ≤ 31 := by
    intro x hx
    obtain ⟨r, hr, hrx⟩ := List.mem_map.mp ((daily_dates_mem rows x).mp hx)
    obtain ⟨h1, h2, h3, h4, _, _⟩ := hbounds r hr
    subst hrx
    exact ⟨h1, h2, h3, h4⟩
  refine (hle.and hnd).imp_of_mem ?_
  intro a b ha hb hab
  obtain ⟨hab1, hab2⟩ := hab
  have hka : dateKey a ≤ dateKey b := by
    simpa [dateLe, Nat.ble_eq] using hab1
  rcases lt_or_eq_of_le hka with hlt | heq
  · exact hlt
  · exact absurd (dateKey_inj a b (hvalid a ha) (hvalid b hb) heq) hab2

/-- Witness for C8: a concrete parse with two dates; the daily table is
strictly increasing in date. -/
theorem hourly_to_daily_strict_dates_witness :
    parse_hourly (headersEx ++ [("02.01.2024 00:00", "3"), ("01.01.2024 00:00", "5")])
      = .ok [⟨⟨2024, 1, 1, 0, 0⟩, 5⟩, ⟨⟨2024, 1, 2, 0, 0⟩, 3⟩] ∧
    (hourly_to_daily [⟨⟨2024, 1, 1, 0, 0⟩, 5⟩, ⟨⟨2024, 1, 2, 0, 0⟩, 3⟩]).Pairwise
      (fun a b => dateKey a.date < dateKey b.date) :=
  ⟨by rfl, hourly_to_daily_strict_dates
    (headersEx ++ [("02.01.2024 00:00", "3"), ("01.01.2024 00:00", "5")])
    [⟨⟨2024, 1, 1, 0, 0⟩, 5⟩, ⟨⟨2024, 1, 2, 0, 0⟩, 3⟩] (by rfl)⟩

/-- Claim C6: when no line after the first four matches the row pattern,
the parser returns the empty sequence, the daily table is empty, and the
downstream first/last access of the banner raises (`none`) — the empty
case is unguarded. -/
theorem parse_hourly_empty_unguarded (lines : List (String × String))
    (hnone : ∀ l ∈ lines.drop 4, maskMatch l.1 = false) :
    parse_hourly lines = .ok [] ∧
    hourly_to_daily [] = [] ∧
    firstLastDates (hourly_to_daily []) = none := by
  have hkept : (lines.drop 4).filter (fun l => maskMatch l.1) = [] := by
    rw [List.filter_eq_nil_iff]
    intro a ha
    simp [hnone a ha]
  refine ⟨?_, rfl, rfl⟩
  simp only [parse_hourly, hkept]
  rfl

/-- Witness for C6: a file whose only body line is malformed. -/
theorem parse_hourly_empty_unguarded_witness :
    (∀ l ∈ (headersEx ++ [("junk", "5")]).drop 4, maskMatch l.1 = false) ∧
    (parse_hourly (headersEx ++ [("junk", "5")]) = .ok [] ∧
      hourly_to_daily [] = [] ∧
      firstLastDates (hourly_to_daily []) = none) :=
  ⟨by decide, parse_hourly_empty_unguarded (headersEx ++ [("junk", "5")])
    (by decide)⟩

/-- Claim C3 counterexample: a line whose timestamp field merely BEGINS
with the `DD.MM.YYYY HH:MM` pattern (here with a trailing `:00`) is not
silently dropped — the timestamp conversion raises; likewise a line with
a matching timestamp but a non-numeric reading makes the reading
conversion raise. -/
theorem parse_hourly_raises_on_nonmatching_line :
    parse_hourly (headersEx ++ [("01.01.2024 00:00:00", "1,5")])
      = .error .badTimestamp ∧
    parse_hourly (headersEx ++ [("01.01.2024 00:00", "abc")])
      = .error .badNumber :=
  ⟨by rfl, by rfl⟩

/-- Claim C3 as amended: a line after the first four whose timestamp
field does not even BEGIN with the pattern is silently dropped (removing
it does not change the result), and when the parse succeeds every
output row comes from a kept line — one whose timestamp field begins
with the pattern and converts, and whose reading converts.  Lines that
pass the prefix filter but fail either conversion raise instead of
being dropped (see the counterexample). -/
theorem parse_hourly_mask_semantics (pre : List (String × String))
    (l : String × String) (post : List (String × String))
    (hpre : 4 ≤ pre.length) (hmask : maskMatch l.1 = false) :
    parse_hourly (pre ++ l :: post) = parse_hourly (pre ++ post) ∧
    (∀ lines rows, parse_hourly lines = .ok rows →
      ∀ r ∈ rows, ∃ l2 ∈ lines.drop 4, maskMatch l2.1 = true ∧
        parseTsExact l2.1 = some r.timestamp ∧
        parseDecimalComma l2.2 = some r.kwh) := by
  constructor
  · have h0 : 4 - pre.length = 0 := by omega
    have hkept : ((pre ++ l :: post).drop 4).filter (fun x => maskMatch x.1)
        = ((pre ++ post).drop 4).filter (fun x => maskMatch x.1) := by
      rw [List.drop_append_eq_append_drop, List.drop_append_eq_append_drop, h0,
        List.drop_zero, List.drop_zero, List.filter_append, List.filter_append,
        List.filter_cons_of_neg (by simp [hmask])]
    simp only [parse_hourly, hkept]
  · intro lines rows hok r hr
    obtain ⟨l2, hl2, h1, h2⟩ := parse_ok_rows_spec lines rows hok r hr
    rw [List.mem_filter] at hl2
    exact ⟨l2, hl2.1, hl2.2, h1, h2⟩

/-- Witness for C3 (amended): dropping a concrete malformed line leaves
the parse unchanged. -/
theorem parse_hourly_mask_semantics_witness :
    4 ≤ headersEx.length ∧ maskMatch "bad-line" = false ∧
    (parse_hourly (headersEx ++ ("bad-line", "5,0") :: [("03.01.2024 12:00", "7")])
        = parse_hourly (headersEx ++ [("03.01.2024 12:00", "7")]) ∧
      (∀ lines rows, parse_hourly lines = .ok rows →
        ∀ r ∈ rows, ∃ l2 ∈ lines.drop 4, maskMatch l2.1 = true ∧
          parseTsExact l2.1 = some r.timestamp ∧
          parseDecimalComma l2.2 = some r.kwh)) :=
  ⟨by decide, by decide,
    parse_hourly_mask_semantics headersEx ("bad-line", "5,0")
      [("03.01.2024 12:00", "7")] (by decide) (by decide)⟩

/-- Claim C4: for every complete 7-row block of the daily table, the
corresponding weekly row carries the date of the block's first row, an
average equal to the arithmetic mean of the block's 7 daily totals
rounded to 2 decimal places, and min and max equal exactly to the
minimum and maximum of those 7 totals. -/
theorem daily_to_weekly_block_row (daily : List DailyRow) (i : Nat)
    (h : i < daily.length / 7) :
    ((weeklyBlock daily i).map DailyRow.daily_kwh).length = 7 ∧
    ((daily_to_weekly daily)[i]?.bind WeeklyRow.date)
      = (weeklyBlock daily i).head?.map DailyRow.date ∧
    ((daily_to_weekly daily)[i]?.bind WeeklyRow.weekly_kwh_avg)
      = some (round2 (((weeklyBlock daily i).map DailyRow.daily_kwh).sum
          / (((weeklyBlock daily i).map DailyRow.daily_kwh).length : ℚ))) ∧
    ((daily_to_weekly daily)[i]?.bind WeeklyRow.min)
      = ((weeklyBlock daily i).map DailyRow.daily_kwh).min? ∧
    ((daily_to_weekly daily)[i]?.bind WeeklyRow.max)
      = ((weeklyBlock daily i).map DailyRow.daily_kwh).max? := by
  have hlen : (weeklyBlock daily i).length = 7 := by
    simp only [weeklyBlock, List.length_take, List.length_drop]
    omega
  have hmax : i < Nat.max (daily.length / 7) 4 :=
    lt_of_lt_of_le h (Nat.le_max_left _ _)
  have hrow : (daily_to_weekly daily)[i]?
      = some
        { col0 := initialRows[i]?
          date := (weeklyBlock daily i).head?.map DailyRow.date
          weekly_kwh_avg :=
            some (round2 (((weeklyBlock daily i).map DailyRow.daily_kwh).sum / 7))
          min := ((weeklyBlock daily i).map DailyRow.daily_kwh).min?
          max := ((weeklyBlock daily i).map DailyRow.daily_kwh).max? } := by
    simp only [daily_to_weekly]
    rw [List.getElem?_map, List.getElem?_range hmax]
    simp [h]
  refine ⟨by rw [List.length_map, hlen], ?_, ?_, ?_, ?_⟩
  · rw [hrow]
    rfl
  · rw [hrow, List.length_map, hlen]
    norm_num
  · rw [hrow]
    rfl
  · rw [hrow]
    rfl

/-- Witness for C4 at the first block of a concrete 7-row daily table. -/
theorem daily_to_weekly_block_row_witness :
    0 < dailyWitnessEx.length / 7 ∧
    (((weeklyBlock dailyWitnessEx 0).map DailyRow.daily_kwh).length = 7 ∧
      ((daily_to_weekly dailyWitnessEx)[0]?.bind WeeklyRow.date)
        = (weeklyBlock dailyWitnessEx 0).head?.map DailyRow.date ∧
      ((daily_to_weekly dailyWitnessEx)[0]?.bind WeeklyRow.weekly_kwh_avg)
        = some (round2 (((weeklyBlock dailyWitnessEx 0).map DailyRow.daily_kwh).sum
            / (((weeklyBlock dailyWitnessEx 0).map DailyRow.daily_kwh).length : ℚ))) ∧
      ((daily_to_weekly dailyWitnessEx)[0]?.bind WeeklyRow.min)
        = ((weeklyBlock dailyWitnessEx 0).map DailyRow.daily_kwh).min? ∧
      ((daily_to_weekly dailyWitnessEx)[0]?.bind WeeklyRow.max)
        = ((weeklyBlock dailyWitnessEx 0).map DailyRow.daily_kwh).max?) :=
  ⟨by decide, daily_to_weekly_block_row dailyWitnessEx 0 (by decide)⟩

/-- Claim C2 fails on the code: for a daily table of exactly 7 rows the
weekly table should have `7 / 7 = 1` row, but the mis-constructed
initial frame `pd.DataFrame(['date', 'weekly_kwh_avg', 'min', 'max'])`
contributes four rows, so the result has 4 rows of which only one is a
data row. -/
theorem daily_to_weekly_phantom_rows :
    dailySevenEx.length / 7 = 1 ∧
    (daily_to_weekly dailySevenEx).length = 4 ∧
    ((daily_to_weekly dailySevenEx).filter
      (fun w => w.date.isSome)).length = 1 :=
  ⟨by rfl, by rfl, by rfl⟩

/-! ### Comparison-mode lemmas -/

theorem dayColumn_spec (rows : List Row) (d : Date)
    (hval : ∀ r ∈ rows, r.timestamp.hour < 24)
    (hnd : ((rows.filter (fun r => decide (r.date = d))).map
      (fun r => r.timestamp.hour)).Nodup) :
    (dayColumn rows d).length = 24 ∧
    (∀ r ∈ rows.filter (fun r => decide (r.date = d)),
      (dayColumn rows d)[r.timestamp.hour]? = some r.kwh) ∧
    (∀ hh < 24, (∀ r ∈ rows.filter (fun r => decide (r.date = d)),
      r.timestamp.hour ≠ hh) → (dayColumn rows d)[hh]? = some 0) := by
  refine ⟨by simp [dayColumn], ?_, ?_⟩
  · intro r hr
    have hhr : r.timestamp.hour < 24 := hval r (List.mem_filter.mp hr).1
    simp only [dayColumn]
    rw [List.getElem?_map, List.getElem?_range hhr]
    cases hfind : (rows.filter (fun r => decide (r.date = d))).find?
        (fun x => decide (x.timestamp.hour = r.timestamp.hour)) with
    | none =>
      rw [List.find?_eq_none] at hfind
      exact absurd (by simp) (hfind r hr)
    | some r2 =>
      have hpred := List.find?_some hfind
      have hmem := List.mem_of_find?_eq_some hfind
      have hr2 : r2 = r :=
        List.inj_on_of_nodup_map hnd hmem hr (by simpa using hpred)
      subst hr2
      simp only [Option.map_some']
      rw [hfind]
  · intro hh hh24 hnone
    simp only [dayColumn]
    rw [List.getElem?_map, List.getElem?_range hh24]
    cases hfind : (rows.filter (fun r => decide (r.date = d))).find?
        (fun x => decide (x.timestamp.hour = hh)) with
    | none =>
      simp only [Option.map_some']
      rw [hfind]
    | some r2 =>
      have hpred := List.find?_some hfind
      have hmem := List.mem_of_find?_eq_some hfind
      exact absurd (by simpa using hpred) (hnone r2 hmem)

theorem compareDay_ok_spec (sources : List (String × List Row)) (d : Date)
    (hnd : ∀ p ∈ sources, ((p.2.filter (fun r => decide (r.date = d))).map
      (fun r => r.timestamp.hour)).Nodup) :
    compareDay sources d =
      .ok ((sources.filter (fun p =>
            (p.2.filter (fun r => decide (r.date = d))).isEmpty)).map Prod.fst,
          (sources.filter (fun p =>
            !(p.2.filter (fun r => decide (r.date = d))).isEmpty)).map
            (fun p => (p.1, dayColumn p.2 d))) := by
  induction sources with
  | nil => rfl
  | cons p rest ih =>
    obtain ⟨name, rows⟩ := p
    have hndHead := hnd (name, rows) (List.mem_cons_self _ _)
    have hndRest : ∀ p ∈ rest, ((p.2.filter (fun r => decide (r.date = d))).map
        (fun r => r.timestamp.hour)).Nodup :=
      fun p hp => hnd p (List.mem_cons_of_mem _ hp)
    by_cases hemp : (rows.filter (fun r => decide (r.date = d))).isEmpty = true
    · simp only [compareDay]
      rw [if_pos hemp, ih hndRest]
      simp [List.filter_cons, hemp]
    · have hok : reindexDay rows d = .ok (dayColumn rows d) := by
        simp only [reindexDay]
        rw [if_pos hndHead]
      simp only [compareDay]
      rw [if_neg hemp, hok, ih hndRest]
      simp [List.filter_cons, hemp]

/-- Claim C5 as amended: for sources that are parsed hourly sequences
(hours 0–23) in which no source has two readings in the same hour of
the chosen date, the comparison succeeds; the warned names are exactly
the sources with no reading on that date (and they contribute no
column), every other source contributes a 24-slot column under its
name, and for each source slot `h` of its column holds its reading at
hour `h` when present and `0` otherwise — no reading of that date is
dropped. -/
theorem compareDay_columns_spec (sources : List (String × List Row)) (d : Date)
    (hval : ∀ p ∈ sources, ∀ r ∈ p.2, r.timestamp.hour < 24)
    (hnd : ∀ p ∈ sources, ((p.2.filter (fun r => decide (r.date = d))).map
      (fun r => r.timestamp.hour)).Nodup) :
    compareDay sources d =
      .ok ((sources.filter (fun p =>
            (p.2.filter (fun r => decide (r.date = d))).isEmpty)).map Prod.fst,
          (sources.filter (fun p =>
            !(p.2.filter (fun r => decide (r.date = d))).isEmpty)).map
            (fun p => (p.1, dayColumn p.2 d))) ∧
    ∀ p ∈ sources, (dayColumn p.2 d).length = 24 ∧
      (∀ r ∈ p.2.filter (fun r => decide (r.date = d)),
        (dayColumn p.2 d)[r.timestamp.hour]? = some r.kwh) ∧
      (∀ hh < 24, (∀ r ∈ p.2.filter (fun r => decide (r.date = d)),
        r.timestamp.hour ≠ hh) → (dayColumn p.2 d)[hh]? = some 0) := by
  refine ⟨compareDay_ok_spec sources d hnd, ?_⟩
  intro p hp
  exact dayColumn_spec p.2 d (hval p hp) (hnd p hp)

/-- Witness for C5 (amended) on two concrete sources: `a` has a reading
on the chosen date and contributes a column, `b` has none and is only
warned about. -/
theorem compareDay_columns_spec_witness :
    (∀ p ∈ compareSourcesEx, ∀ r ∈ p.2, r.timestamp.hour < 24) ∧
    (∀ p ∈ compareSourcesEx,
      ((p.2.filter (fun r => decide (r.date = (⟨2024, 1, 1⟩ : Date)))).map
        (fun r => r.timestamp.hour)).Nodup) ∧
    (compareDay compareSourcesEx ⟨2024, 1, 1⟩ =
      .ok ((compareSourcesEx.filter (fun p =>
            (p.2.filter (fun r => decide (r.date = (⟨2024, 1, 1⟩ : Date)))).isEmpty)).map Prod.fst,
          (compareSourcesEx.filter (fun p =>
            !(p.2.filter (fun r => decide (r.date = (⟨2024, 1, 1⟩ : Date)))).isEmpty)).map
            (fun p => (p.1, dayColumn p.2 ⟨2024, 1, 1⟩))) ∧
    ∀ p ∈ compareSourcesEx, (dayColumn p.2 ⟨2024, 1, 1⟩).length = 24 ∧
      (∀ r ∈ p.2.filter (fun r => decide (r.date = (⟨2024, 1, 1⟩ : Date))),
        (dayColumn p.2 ⟨2024, 1, 1⟩)[r.timestamp.hour]? = some r.kwh) ∧
      (∀ hh < 24, (∀ r ∈ p.2.filter (fun r => decide (r.date = (⟨2024, 1, 1⟩ : Date))),
        r.timestamp.hour ≠ hh) → (dayColumn p.2 ⟨2024, 1, 1⟩)[hh]? = some 0)) :=
  ⟨by decide, by decide,
    compareDay_columns_spec compareSourcesEx ⟨2024, 1, 1⟩ (by decide) (by decide)⟩

/-- Claim C5 counterexample: a source with two readings in hour 0 of
the chosen date has at least one reading on that date, yet the
comparison raises and the source contributes no column at all. -/
theorem compareDay_duplicate_no_column :
    compareDay [("a", dupHourSourceEx)] ⟨2024, 1, 1⟩ = .error "a" := by
  rfl

/-- Claim C10: when a source contains two readings with the same hour on
the comparison date, the reindexing step raises for that source instead
of summing the duplicates or producing a column, and the whole
comparison against any source list containing it ends in an error. -/
theorem reindex_duplicate_hour_raises (sources : List (String × List Row))
    (d : Date) (name : String) (rows : List Row)
    (hmem : (name, rows) ∈ sources)
    (hdup : ¬((rows.filter (fun r => decide (r.date = d))).map
      (fun r => r.timestamp.hour)).Nodup) :
    reindexDay rows d = .error () ∧
    ∃ e, compareDay sources d = .error e := by
  constructor
  · simp only [reindexDay]
    rw [if_neg hdup]
  · induction sources with
    | nil => cases hmem
    | cons p rest ih =>
      obtain ⟨n2, rs2⟩ := p
      rcases List.mem_cons.mp hmem with heq | hm2
      · cases heq
        have hne : ¬(rows.filter (fun r => decide (r.date = d))).isEmpty = true := by
          intro hcon
          rw [List.isEmpty_iff] at hcon
          apply hdup
          rw [hcon]
          simp
        have herr : reindexDay rows d = .error () := by
          simp only [reindexDay]
          rw [if_neg hdup]
        refine ⟨name, ?_⟩
        simp only [compareDay]
        rw [if_neg hne, herr]
      · obtain ⟨e, he⟩ := ih hm2
        by_cases hemp : (rs2.filter (fun r => decide (r.date = d))).isEmpty = true
        · refine ⟨e, ?_⟩
          simp only [compareDay]
          rw [if_pos hemp, he]
        · cases hri : reindexDay rs2 d with
          | error u =>
            refine ⟨n2, ?_⟩
            simp only [compareDay]
            rw [if_neg hemp, hri]
          | ok col =>
            refine ⟨e, ?_⟩
            simp only [compareDay]
            rw [if_neg hemp, hri, he]

/-- Witness for C10: a concrete source with hour 5 duplicated on
2025-02-03. -/
theorem reindex_duplicate_hour_raises_witness :
    ("dup", dupHourSourceEx2) ∈ [("dup", dupHourSourceEx2)] ∧
    ¬((dupHourSourceEx2.filter
        (fun r => decide (r.date = (⟨2025, 2, 3⟩ : Date)))).map
      (fun r => r.timestamp.hour)).Nodup ∧
    (reindexDay dupHourSourceEx2 ⟨2025, 2, 3⟩ = .error () ∧
      ∃ e, compareDay [("dup", dupHourSourceEx2)] ⟨2025, 2, 3⟩ = .error e) :=
  ⟨by decide, by decide,
    reindex_duplicate_hour_raises [("dup", dupHourSourceEx2)] ⟨2025, 2, 3⟩
      "dup" dupHourSourceEx2 (by decide) (by decide)⟩
